import Mathlib

/-
Verification of the bolt-server HTTP/BoltDB mapping layer.

This file is a shallow embedding of the request-handling code in
server.go together with the Bolt helper functions
(createHeaderBucketIfNotExists, getBoltBucket, getOrCreateBoltBucket,
getBoltBucketOrValue, getHeaderValue).  The Bolt database is modelled as
a tree of buckets and values plus the dedicated headers bucket; a
transaction that returns an error is modelled by returning the original
database (bolt's Update rolls the transaction back).  Handlers become
pure functions from a database and a request to a new database and a
response.
-/

set_option maxHeartbeats 1000000

/-- Byte strings (request bodies, stored values) as lists of byte values. -/
abbrev Bytes := List Nat

/-- Path segments; Go uses raw byte slices, segments of an escaped URL path. -/
abbrev Seg := String

/-- A Go http.Header: an association of canonical field names to value lists. -/
abbrev HttpHeader := List (String × List String)

/-- Association-list lookup keyed by strings (bolt bucket Get / map lookup). -/
def lookupA {α : Type} : List (String × α) → String → Option α
  | [], _ => none
  | (k1, v) :: rest, k => if k1 = k then some v else lookupA rest k

/-- Association-list upsert (bolt bucket Put / map assignment). -/
def setAssoc {α : Type} : List (String × α) → String → α → List (String × α)
  | [], k, v => [(k, v)]
  | (k1, v1) :: rest, k, v =>
    if k1 = k then (k, v) :: rest else (k1, v1) :: setAssoc rest k v

/-- Association-list removal (bolt bucket Delete / map delete). -/
def removeAssoc {α : Type} (l : List (String × α)) (k : String) : List (String × α) :=
  l.filter (fun kv => kv.1 ≠ k)

/-- http.Header.Get: the first value stored for the key, or "". -/
def headerGet (h : HttpHeader) (k : String) : String :=
  match lookupA h k with
  | some (v :: _) => v
  | _ => ""

/-- http.Header.Set: replace the entry for the key with a single value. -/
def headerSet (h : HttpHeader) (k v : String) : HttpHeader :=
  setAssoc h k [v]

/-- http.Header.Del: remove the entry for the key. -/
def headerDel (h : HttpHeader) (k : String) : HttpHeader :=
  removeAssoc h k

/-- First value of an optional header value list, or "" (header.Get). -/
def firstValue : Option (List String) → String
  | some (v :: _) => v
  | _ => ""

/-- A node of the Bolt namespace tree: a (sub-)bucket or a stored value. -/
inductive Node where
  | bucket (children : List (String × Node))
  | value (data : Bytes)

/-- The database: the root bucket "/" and the dedicated headers bucket.
The headers bucket maps full escaped paths to stored http.Header records
(JSON (un)marshalling of the record is assumed to round-trip exactly,
per the metadata-store contract; the record "{}" is the empty header). -/
structure DB where
  root : Node
  headers : List (String × HttpHeader)

/-- The parts of an HTTP request consulted by the handlers.
contentLength is req.ContentLength: -1 when the length is unknown (for
example a chunked body with no Content-Length header), 0 when there is
no body.  body holds the readable body bytes.  now is the formatted
time.Now() value stamped as Last-Modified. -/
structure Request where
  path : String
  contentLength : Int
  body : Bytes
  ifMatch : Option (List String)
  ifNoneMatch : Option (List String)
  rangeHdr : Option String
  contentType : List String
  contentLengthHdr : List String
  now : String

/-- The observable response: status code, explicitly set headers, body
bytes, and — for bucket listings — the listed keys (the rendering of a
listing by Accept negotiation is outside the scope of the claims). -/
structure Response where
  status : Nat
  headers : HttpHeader
  body : Bytes
  listing : Option (List String)
deriving DecidableEq

/-- http.Error responses (message text not modelled). -/
def errResponse (st : Nat) : Response :=
  { status := st, headers := [], body := [], listing := none }

/-- Split a character list at every occurrence of sep (bytes.Split). -/
def splitOnChar (sep : Char) : List Char → List (List Char)
  | [] => [[]]
  | c :: rest =>
    if c = sep then [] :: splitOnChar sep rest
    else
      match splitOnChar sep rest with
      | g :: gs => (c :: g) :: gs
      | [] => [[c]]

/-- splitPath from server.go: a synthetic "/" segment followed by every
non-empty slash-delimited component of the escaped path. -/
def splitPath (path : String) : List Seg :=
  "/" :: ((splitOnChar '/' path.toList).filter (fun cs => !cs.isEmpty)).map
    (fun cs => String.mk cs)

/-- Join segments back with slashes. -/
def joinSegs : List Seg → String
  | [] => ""
  | [s] => s
  | s :: rest => s ++ "/" ++ joinSegs rest

/-- Render a split-parts list (synthetic "/" head plus segments) back to
the unique canonical path string producing it. -/
def renderParts : List Seg → String
  | [] => "/"
  | _ :: segs => "/" ++ joinSegs segs

/-- A path string is canonical when it is exactly the rendering of its
own split: "/" followed by its non-empty segments joined with "/". -/
def canonicalPath (p : String) : Prop :=
  p = renderParts (splitPath p)

instance canonicalPathDecidable (p : String) : Decidable (canonicalPath p) :=
  inferInstanceAs (Decidable (p = renderParts (splitPath p)))

/-- Walk nested buckets by segment names (the loop of getBoltBucket):
nil as soon as a segment is missing or resolves to a plain value. -/
def walkBuckets : Node → List Seg → Option Node
  | b, [] => some b
  | Node.value _, _ :: _ => none
  | Node.bucket ch, s :: rest =>
    match lookupA ch s with
    | some (Node.bucket ch2) => walkBuckets (Node.bucket ch2) rest
    | _ => none

/-- getBoltBucket: parts always begin with the synthetic "/" segment,
which resolves to the root bucket (present by startup invariant). -/
def getBoltBucket (db : DB) (parts : List Seg) : Option Node :=
  match parts with
  | [] => none
  | _ :: rest => walkBuckets db.root rest

/-- getBoltBucketOrValue: the child under the key, a bucket or a value. -/
def getBoltBucketOrValue (b : Node) (key : Seg) : Option Node :=
  match b with
  | Node.bucket ch => lookupA ch key
  | Node.value _ => none

/-- listKeys: the keys of a bucket in the engine's enumeration order. -/
def listKeys (b : Node) : List String :=
  match b with
  | Node.bucket ch => ch.map (fun kv => kv.1)
  | Node.value _ => []

/-- getOrCreateBoltBucket in state-passing form: create every missing
bucket along the segment chain (CreateBucketIfNotExists), returning the
updated root; an existing plain value at any segment is bolt's
ErrIncompatibleValue. -/
def getOrCreateBoltBucket : Node → List Seg → Except Unit Node
  | b, [] => Except.ok b
  | Node.value _, _ :: _ => Except.error ()
  | Node.bucket ch, s :: rest =>
    match lookupA ch s with
    | some (Node.value _) => Except.error ()
    | some (Node.bucket ch2) =>
      match getOrCreateBoltBucket (Node.bucket ch2) rest with
      | Except.ok b2 => Except.ok (Node.bucket (setAssoc ch s b2))
      | Except.error e => Except.error e
    | none =>
      match getOrCreateBoltBucket (Node.bucket []) rest with
      | Except.ok b2 => Except.ok (Node.bucket (setAssoc ch s b2))
      | Except.error e => Except.error e

/-- bucket.Put addressed by the path of the enclosing bucket (the bucket
handle returned by getOrCreateBoltBucket): errors if the key holds a
nested bucket (ErrIncompatibleValue) or the enclosing chain is missing. -/
def boltPut : Node → List Seg → Seg → Bytes → Except Unit Node
  | Node.bucket ch, [], key, data =>
    (match lookupA ch key with
     | some (Node.bucket _) => Except.error ()
     | _ => Except.ok (Node.bucket (setAssoc ch key (Node.value data))))
  | Node.bucket ch, s :: rest, key, data =>
    (match lookupA ch s with
     | some (Node.bucket ch2) =>
       match boltPut (Node.bucket ch2) rest key data with
       | Except.ok b2 => Except.ok (Node.bucket (setAssoc ch s b2))
       | Except.error e => Except.error e
     | _ => Except.error ())
  | Node.value _, _, _, _ => Except.error ()

/-- bucket.Delete addressed by the path of the enclosing bucket: errors
if the key holds a nested bucket (ErrIncompatibleValue); deleting a
missing key succeeds as a no-op. -/
def boltDelete : Node → List Seg → Seg → Except Unit Node
  | Node.bucket ch, [], key =>
    (match lookupA ch key with
     | some (Node.bucket _) => Except.error ()
     | _ => Except.ok (Node.bucket (removeAssoc ch key)))
  | Node.bucket ch, s :: rest, key =>
    (match lookupA ch s with
     | some (Node.bucket ch2) =>
       match boltDelete (Node.bucket ch2) rest key with
       | Except.ok b2 => Except.ok (Node.bucket (setAssoc ch s b2))
       | Except.error e => Except.error e
     | _ => Except.error ())
  | Node.value _, _, _ => Except.error ()

/-- getHeaderValue: the stored metadata record for the exact escaped
path, none if never written (the headers bucket exists by startup). -/
def getHeaderValue (db : DB) (path : String) : Option HttpHeader :=
  lookupA db.headers path

/-- The database right after createHeaderBucketIfNotExists and
createRootBucketIfNotExists: an empty root bucket and the record "{}"
stored for the synthetic root path "/". -/
def initialDB : DB :=
  { root := Node.bucket [], headers := [("/", [])] }

/-- FNV-1a offset basis. -/
def fnvOffset : Nat := 14695981039346656037

/-- FNV-1a prime. -/
def fnvPrime : Nat := 1099511628211

/-- 2^64, the modulus of Go's 64-bit FNV state. -/
def two64 : Nat := 18446744073709551616

/-- fnv.New64a followed by Write: fold FNV-1a over the bytes. -/
def fnv1a64 (bs : Bytes) : Nat :=
  bs.foldl (fun h b => ((h ^^^ (b % 256)) * fnvPrime) % two64) fnvOffset

/-- The 8 big-endian bytes of a 64-bit FNV sum (hash.Sum). -/
def beBytes8 (n : Nat) : Bytes :=
  [n / 72057594037927936 % 256, n / 281474976710656 % 256,
   n / 1099511627776 % 256, n / 4294967296 % 256, n / 16777216 % 256,
   n / 65536 % 256, n / 256 % 256, n % 256]

/-- The standard base64 alphabet character for a 6-bit group. -/
def b64Char (n : Nat) : Char :=
  "ABCDEFGHIJKLMNOPQRSTUVWXYZabcdefghijklmnopqrstuvwxyz0123456789+/".toList.getD n '='

/-- Standard base64 encoding of a byte list, 3-byte groups with padding. -/
def b64Groups : Bytes → List Char
  | b0 :: b1 :: b2 :: rest =>
    b64Char (b0 / 4) :: b64Char (b0 % 4 * 16 + b1 / 16) ::
      b64Char (b1 % 16 * 4 + b2 / 64) :: b64Char (b2 % 64) :: b64Groups rest
  | [b0, b1] => [b64Char (b0 / 4), b64Char (b0 % 4 * 16 + b1 / 16),
      b64Char (b1 % 16 * 4), '=']
  | [b0] => [b64Char (b0 / 4), b64Char (b0 % 4 * 16), '=', '=']
  | [] => []

/-- base64.StdEncoding.EncodeToString. -/
def base64Encode (bs : Bytes) : String :=
  String.mk (b64Groups bs)

/-- etag from server.go: base64 of the FNV-64a hash of the value bytes. -/
def etag (b : Bytes) : String :=
  base64Encode (beBytes8 (fnv1a64 b))

/-- extractHeader: retain only the allow-listed request header fields
(Content-Type, Content-Length), each only when it has values. -/
def extractHeader (req : Request) : HttpHeader :=
  (if req.contentType.isEmpty then [] else [("Content-Type", req.contentType)]) ++
    (if req.contentLengthHdr.isEmpty then [] else [("Content-Length", req.contentLengthHdr)])

/-- checkIfNoneMatch: whether any If-None-Match value is "*" or equals
the stored ETag. -/
def checkIfNoneMatch (storedHeader : HttpHeader) (req : Request) : Bool :=
  match req.ifNoneMatch with
  | some nm => nm.any (fun m => m == "*" || m == headerGet storedHeader "ETag")
  | none => false

/-- checkIfMatch from server.go: with no stored record the precondition
holds unless "*" is listed; with a stored record it requires a non-empty
stored ETag and a listed value equal to it or to "*". -/
def checkIfMatch (header : Option HttpHeader) (req : Request) : Bool :=
  match header with
  | none =>
    (match req.ifMatch with
     | some ms => !(ms.any (fun m => m == "*"))
     | none => true)
  | some h =>
    (match req.ifMatch with
     | none => true
     | some ms =>
       let eTag := headerGet h "ETag"
       if eTag ≠ "" then ms.any (fun m => eTag == m || m == "*") else false)

/-- badPutOrDeleteHeaders: 400 when the declared length exceeds 1<<24,
412 when an If-None-Match header is present. -/
def badPutOrDeleteHeaders (req : Request) : Option Nat :=
  if req.contentLength > 16777216 then some 400
  else if firstValue req.ifNoneMatch ≠ "" then some 412
  else none

/-- Range-parse failure: ranger.Error (unsatisfiable) versus any other
parse error (bad request). -/
inductive RangeError where
  | unsat
  | malformed
deriving DecidableEq

/-- A byte span, inclusive on both ends (ranger.ByteRange). -/
structure ByteRange where
  start : Nat
  stop : Nat
deriving DecidableEq

/-- Decimal digit value of a character, if it is a digit. -/
def digitVal : Char → Option Nat
  | c => if '0' ≤ c ∧ c ≤ '9' then some (c.toNat - 48) else none

/-- Accumulate a decimal number over characters, none on a non-digit. -/
def digitsToNatAux : List Char → Nat → Option Nat
  | [], n => some n
  | c :: rest, n =>
    match digitVal c with
    | some d => digitsToNatAux rest (n * 10 + d)
    | none => none

/-- Parse a non-empty all-digit character list as a natural number. -/
def digitsToNat : List Char → Option Nat
  | [] => none
  | c :: rest => digitsToNatAux (c :: rest) 0

/-- Modelled from the spec: one start-end span of a Range header.  The
ranger package (github.com/echlebek/ranger) that parses Range headers is
an external collaborator whose source is not part of this repository.
Per the spec (and the repository's range tests) a span is two explicit
decimal offsets, valid only when start ≤ end and end is within the
value; an out-of-bounds span makes the whole request unsatisfiable. -/
def parseRangeSpan (cs : List Char) (length : Nat) : Except RangeError ByteRange :=
  match (splitOnChar '-' cs).map digitsToNat with
  | [some x, some y] =>
    if x ≤ y && y < length then Except.ok { start := x, stop := y }
    else Except.error RangeError.unsat
  | _ => Except.error RangeError.malformed

/-- Modelled from the spec: the span list of a Range header value, in
the literal order the spans appear. -/
def parseRangeSpans (groups : List (List Char)) (length : Nat) :
    Except RangeError (List ByteRange) :=
  match groups with
  | [] => Except.ok []
  | g :: rest =>
    match parseRangeSpan g length with
    | Except.ok r =>
      (match parseRangeSpans rest length with
       | Except.ok rs => Except.ok (r :: rs)
       | Except.error e => Except.error e)
    | Except.error e => Except.error e

/-- Modelled from the spec: ranger.ParseHeader.  Only the bytes= unit is
accepted; anything else is a client error (400).  Spans are returned in
header order, never merged or deduplicated. -/
def parseRangeHeader (h : String) (length : Nat) : Except RangeError (List ByteRange) :=
  match h.toList with
  | 'b' :: 'y' :: 't' :: 'e' :: 's' :: '=' :: rest =>
    parseRangeSpans (splitOnChar ',' rest) length
  | _ => Except.error RangeError.malformed

/-- The slice value[r.Start : r.Stop+1] emitted for one requested span. -/
def sliceSpan (v : Bytes) (r : ByteRange) : Bytes :=
  (v.drop r.start).take (r.stop + 1 - r.start)

/-- The tail of getBucketOrValue after the If-None-Match gate: resolve
the enclosing bucket, list a bucket or serve a value (whole or ranged). -/
def getBucketOrValueRest (db : DB) (req : Request) (parts : List Seg)
    (header : Option HttpHeader) : Response :=
  let p := if parts.length > 1 then parts.dropLast else parts
  match getBoltBucket db p with
  | none => errResponse 404
  | some encl =>
    if parts.length = 1 then
      { status := 200, headers := [], body := [], listing := some (listKeys encl) }
    else
      match getBoltBucketOrValue encl (parts.getLastD "") with
      | none => errResponse 404
      | some (Node.bucket ch) =>
        { status := 200, headers := [], body := [],
          listing := some (listKeys (Node.bucket ch)) }
      | some (Node.value v) =>
        match req.rangeHdr with
        | some rh =>
          (match parseRangeHeader rh v.length with
           | Except.ok ranges =>
             { status := 206,
               headers := headerDel (headerDel (header.getD []) "ETag") "Content-Length",
               body := ranges.flatMap (fun r => sliceSpan v r),
               listing := none }
           | Except.error RangeError.unsat => errResponse 416
           | Except.error RangeError.malformed => errResponse 400)
        | none =>
          { status := 200, headers := header.getD [], body := v, listing := none }

/-- getBucketOrValue: GET of a bucket listing or a stored value, with
the If-None-Match short-circuit when a metadata record exists. -/
def getBucketOrValue (db : DB) (req : Request) : Response :=
  let parts := splitPath req.path
  match getHeaderValue db req.path with
  | some h =>
    if checkIfNoneMatch h req then
      { status := 304, headers := headerSet [] "ETag" (headerGet h "ETag"),
        body := [], listing := none }
    else getBucketOrValueRest db req parts (some h)
  | none => getBucketOrValueRest db req parts none

/-- putBucketOrValue: PUT of a value (positive declared Content-Length)
or creation of a bucket chain (otherwise).  A transaction that errors
leaves the database unchanged (bolt Update rollback). -/
def putBucketOrValue (db : DB) (req : Request) : DB × Response :=
  match badPutOrDeleteHeaders req with
  | some st => (db, errResponse st)
  | none =>
    let parts := splitPath req.path
    let key := parts.getLastD ""
    if req.contentLength > 0 then
      let header := getHeaderValue db req.path
      let alreadyExists := header.isSome
      if !(checkIfMatch header req) then (db, errResponse 412)
      else
        let parts1 := parts.dropLast
        if parts1.isEmpty then (db, errResponse 400)
        else
          match getOrCreateBoltBucket db.root (parts1.drop 1) with
          | Except.error _ => (db, errResponse 500)
          | Except.ok root1 =>
            if (req.body.length : Int) < req.contentLength then (db, errResponse 400)
            else
              let buf := req.body.take req.contentLength.toNat
              match boltPut root1 (parts1.drop 1) key buf with
              | Except.error _ => (db, errResponse 500)
              | Except.ok root2 =>
                let hdr := headerSet (headerSet (extractHeader req) "ETag" (etag buf))
                  "Last-Modified" req.now
                ({ root := root2, headers := setAssoc db.headers req.path hdr },
                 if alreadyExists then
                   { status := 204,
                     headers := headerSet (headerSet [] "ETag" (etag buf))
                       "Last-Modified" req.now,
                     body := [], listing := none }
                 else
                   { status := 201,
                     headers := headerSet (headerSet (headerSet [] "ETag" (etag buf))
                       "Last-Modified" req.now) "Location" req.path,
                     body := [], listing := none })
    else
      match getOrCreateBoltBucket db.root (parts.drop 1) with
      | Except.error _ => (db, errResponse 500)
      | Except.ok root1 =>
        ({ root := root1, headers := db.headers },
         { status := 200, headers := [], body := [], listing := none })

/-- deleteBucketOrKey: DELETE of a value together with its metadata
record, in one transaction; an error anywhere rolls the whole
transaction back (header delete included). -/
def deleteBucketOrKey (db : DB) (req : Request) : DB × Response :=
  match badPutOrDeleteHeaders req with
  | some st => (db, errResponse st)
  | none =>
    let parts := splitPath req.path
    if parts.length < 2 then (db, errResponse 400)
    else
      let header := getHeaderValue db req.path
      if !(checkIfMatch header req) then (db, errResponse 412)
      else
        match header with
        | none => (db, errResponse 404)
        | some _ =>
          match getBoltBucket db parts.dropLast with
          | none => (db, errResponse 500)
          | some _ =>
            match boltDelete db.root (parts.dropLast.drop 1) (parts.getLastD "") with
            | Except.error _ => (db, errResponse 500)
            | Except.ok root2 =>
              ({ root := root2, headers := removeAssoc db.headers req.path },
               { status := 204, headers := [], body := [], listing := none })

/-- getHeader (HEAD): serve the stored metadata record, 404 if absent. -/
def getHeader (db : DB) (req : Request) : Response :=
  match getHeaderValue db req.path with
  | none => errResponse 404
  | some h => { status := 200, headers := h, body := [], listing := none }

/-- The value stored at a segment sequence, if the walk from the given
bucket reaches a plain value entry under the final segment. -/
def valueAtSegs : Node → List Seg → Option Bytes
  | Node.value _, _ => none
  | Node.bucket _, [] => none
  | Node.bucket ch, k :: rest =>
    match lookupA ch k with
    | some (Node.value v) => if rest.isEmpty then some v else none
    | some (Node.bucket ch2) => valueAtSegs (Node.bucket ch2) rest
    | none => none

/-- The value entry the namespace tree holds at a path string, resolved
through splitPath exactly as the handlers resolve it. -/
def valueAtPath (db : DB) (p : String) : Option Bytes :=
  valueAtSegs db.root ((splitPath p).drop 1)

/-- The claimed namespace/metadata consistency invariant, restricted to
canonical paths: away from the synthetic root path, a value entry exists
at a canonical path exactly when a metadata record is stored under it. -/
def StoreInv (db : DB) : Prop :=
  ∀ p : String, canonicalPath p → p ≠ "/" →
    ((valueAtPath db p).isSome ↔ (getHeaderValue db p).isSome)

/-- A request template: GET to the root path, no body, no headers. -/
def baseReq : Request :=
  { path := "/", contentLength := 0, body := [], ifMatch := none,
    ifNoneMatch := none, rangeHdr := none, contentType := [],
    contentLengthHdr := [], now := "Sat, 04 Mar 2017 05:56:10 +0000" }

/-- PUT /a with a 3-byte body "foo" and Content-Length 3. -/
def reqPutA : Request :=
  { baseReq with path := "/a", contentLength := 3, body := [102, 111, 111] }

/-- PUT / (the root path itself) with a 1-byte body. -/
def reqPutRoot : Request :=
  { baseReq with path := "/", contentLength := 1, body := [120] }

/-- PUT /a carrying a non-empty body but no Content-Length header: the
Go transport reports ContentLength -1 (unknown/chunked). -/
def reqPutANoLen : Request :=
  { baseReq with path := "/a", contentLength := -1, body := [102] }

/-- A database holding the value "foo" at /a with its metadata record
(ETag "t"), next to the startup record for "/". -/
def dbWithA : DB :=
  { root := Node.bucket [("a", Node.value [102, 111, 111])],
    headers := [("/", []), ("/a", [("ETag", ["t"])])] }

/-- DELETE /a with no conditional headers. -/
def reqDelA : Request :=
  { baseReq with path := "/a" }

/-- DELETE / (the root path). -/
def reqDelRoot : Request :=
  baseReq

/-- Bodyless PUT /foo: creates the top-level container /foo. -/
def reqMkFoo : Request :=
  { baseReq with path := "/foo" }

/-- The database after the bodyless PUT /foo on the initial database. -/
def dbWithFooBucket : DB :=
  (putBucketOrValue initialDB reqMkFoo).1

/-- DELETE /foo with no conditional headers. -/
def reqDelFoo : Request :=
  { baseReq with path := "/foo" }

/-- A request carrying the If-Match value "*". -/
def reqStar : Request :=
  { baseReq with ifMatch := some ["*"] }

/-- Bodyless PUT /a carrying a stale If-Match value. -/
def reqPutABodylessStale : Request :=
  { baseReq with path := "/a", ifMatch := some ["x"] }

/-- PUT /a with body "foo" and a stale If-Match value. -/
def reqPutAStale : Request :=
  { reqPutA with ifMatch := some ["x"] }

/-- DELETE /a with a stale If-Match value. -/
def reqDelAStale : Request :=
  { baseReq with path := "/a", ifMatch := some ["x"] }

/-- PUT /a/ (trailing slash, a non-canonical spelling of /a) with body
"foo" and Content-Length 3. -/
def reqPutASlash : Request :=
  { baseReq with path := "/a/", contentLength := 3, body := [102, 111, 111] }

/-- The database after PUT /a/ with body on the initial database. -/
def dbAfterSlashPut : DB :=
  (putBucketOrValue initialDB reqPutASlash).1

/-- PUT /a/b (canonical) with body "foo" and Content-Length 3. -/
def reqPutAB : Request :=
  { baseReq with path := "/a/b", contentLength := 3, body := [102, 111, 111] }

/-- GET /a with If-None-Match listing the stored ETag "t". -/
def reqGetAMatch : Request :=
  { baseReq with path := "/a", ifNoneMatch := some ["t"] }

/-- GET /a with a Range header repeating the span 0-1. -/
def reqGetARange : Request :=
  { baseReq with path := "/a", rangeHdr := some "bytes=0-1,0-1" }

/-- Bodyless PUT /a carrying an If-None-Match header. -/
def reqPutAWithINM : Request :=
  { baseReq with path := "/a", ifNoneMatch := some ["x"] }

/-- Bodyless PUT /x/y: creates the chain of containers /x/y. -/
def reqMkXY : Request :=
  { baseReq with path := "/x/y" }

/-- The If-Match precondition exactly as claim C5 states it: with no
stored record it holds iff the header is absent or no listed value is
"*"; with a stored record it holds iff the header is absent or some
listed value is "*" or equals the stored ETag exactly. -/
def checkIfMatchClaim (header : Option HttpHeader) (req : Request) : Bool :=
  match header with
  | none =>
    (match req.ifMatch with
     | none => true
     | some ms => !(ms.any (fun m => m == "*")))
  | some h =>
    (match req.ifMatch with
     | none => true
     | some ms => ms.any (fun m => m == "*" || m == headerGet h "ETag"))

/-- The If-Match precondition as the code actually decides it, claim C5
amended: the clause for an existing stored record additionally requires
the stored ETag to be non-empty — a record whose ETag is empty or absent
(such as the startup record for "/") satisfies no If-Match header at
all, not even "*". -/
def ifMatchAmended (header : Option HttpHeader) (req : Request) : Prop :=
  match req.ifMatch with
  | none => True
  | some ms =>
    match header with
    | none => "*" ∉ ms
    | some h => headerGet h "ETag" ≠ "" ∧ ("*" ∈ ms ∨ headerGet h "ETag" ∈ ms)

example : splitPath "/a" = ["/", "a"] := by decide
example : splitPath "/" = ["/"] := by decide
example : splitPath "" = ["/"] := by decide
example : splitPath "/a/" = ["/", "a"] := by decide
example : splitPath "/foo/bar" = ["/", "foo", "bar"] := by decide
example : canonicalPath "/a/b" := by decide
example : ¬ canonicalPath "/a/" := by decide
example : (putBucketOrValue initialDB reqPutA).2.status = 201 := by decide
example : parseRangeHeader "bytes=0-2" 9 =
    Except.ok [{ start := 0, stop := 2 }] := rfl


theorem lookupA_setAssoc {α : Type} (l : List (String × α)) (k k2 : String) (v : α) :
    lookupA (setAssoc l k v) k2 = if k = k2 then some v else lookupA l k2 := by
  induction l with
  | nil => simp [setAssoc, lookupA]
  | cons kv rest ih =>
    obtain ⟨k1, v1⟩ := kv
    simp only [setAssoc]
    by_cases h1 : k1 = k
    · rw [if_pos h1]
      simp only [lookupA]
      by_cases h2 : k = k2
      · rw [if_pos h2, if_pos h2]
      · rw [if_neg h2, if_neg h2,
          if_neg (show ¬ k1 = k2 from fun he => h2 (h1.symm.trans he))]
    · rw [if_neg h1]
      simp only [lookupA]
      by_cases h2 : k1 = k2
      · rw [if_pos h2, if_pos h2,
          if_neg (show ¬ k = k2 from fun he => h1 (h2.trans he.symm))]
      · rw [if_neg h2, if_neg h2, ih]

theorem removeAssoc_cons_eq {α : Type} (k1 k : String) (v1 : α)
    (rest : List (String × α)) (h : k1 = k) :
    removeAssoc ((k1, v1) :: rest) k = removeAssoc rest k := by
  simp [removeAssoc, List.filter, h]

theorem removeAssoc_cons_ne {α : Type} (k1 k : String) (v1 : α)
    (rest : List (String × α)) (h : ¬ k1 = k) :
    removeAssoc ((k1, v1) :: rest) k = (k1, v1) :: removeAssoc rest k := by
  simp [removeAssoc, List.filter, h]

theorem lookupA_removeAssoc {α : Type} (l : List (String × α)) (k k2 : String) :
    lookupA (removeAssoc l k) k2 = if k = k2 then none else lookupA l k2 := by
  induction l with
  | nil => simp [removeAssoc, lookupA]
  | cons kv rest ih =>
    obtain ⟨k1, v1⟩ := kv
    by_cases h1 : k1 = k
    · rw [removeAssoc_cons_eq k1 k v1 rest h1, ih]
      by_cases h2 : k = k2
      · rw [if_pos h2, if_pos h2]
      · rw [if_neg h2, if_neg h2]
        simp only [lookupA]
        rw [if_neg (show ¬ k1 = k2 from fun he => h2 (h1.symm.trans he))]
    · rw [removeAssoc_cons_ne k1 k v1 rest h1]
      simp only [lookupA]
      by_cases h2 : k1 = k2
      · rw [if_pos h2, if_pos h2,
          if_neg (show ¬ k = k2 from fun he => h1 (h2.trans he.symm))]
      · rw [if_neg h2, if_neg h2, ih]

theorem valueAtSegs_empty_bucket (q : List Seg) :
    valueAtSegs (Node.bucket []) q = none := by
  cases q <;> simp [valueAtSegs, lookupA]

theorem getOrCreateBoltBucket_bucket (segs : List Seg) (ch : List (String × Node))
    (b2 : Node) (h : getOrCreateBoltBucket (Node.bucket ch) segs = Except.ok b2) :
    ∃ ch2, b2 = Node.bucket ch2 := by
  cases segs with
  | nil =>
    unfold getOrCreateBoltBucket at h
    cases h
    exact ⟨ch, rfl⟩
  | cons s rest =>
    unfold getOrCreateBoltBucket at h
    split at h
    · cases h
    · split at h
      · cases h; exact ⟨_, rfl⟩
      · cases h
    · split at h
      · cases h; exact ⟨_, rfl⟩
      · cases h

theorem boltPut_bucket (segs : List Seg) (ch : List (String × Node)) (key : Seg)
    (data : Bytes) (b2 : Node)
    (h : boltPut (Node.bucket ch) segs key data = Except.ok b2) :
    ∃ ch2, b2 = Node.bucket ch2 := by
  cases segs with
  | nil =>
    unfold boltPut at h
    split at h
    · cases h
    · cases h; exact ⟨_, rfl⟩
  | cons s rest =>
    unfold boltPut at h
    split at h
    · split at h
      · cases h; exact ⟨_, rfl⟩
      · cases h
    · cases h

theorem boltDelete_bucket (segs : List Seg) (ch : List (String × Node)) (key : Seg)
    (b2 : Node) (h : boltDelete (Node.bucket ch) segs key = Except.ok b2) :
    ∃ ch2, b2 = Node.bucket ch2 := by
  cases segs with
  | nil =>
    unfold boltDelete at h
    split at h
    · cases h
    · cases h; exact ⟨_, rfl⟩
  | cons s rest =>
    unfold boltDelete at h
    split at h
    · split at h
      · cases h; exact ⟨_, rfl⟩
      · cases h
    · cases h

theorem getOrCreateBoltBucket_values (segs : List Seg) :
    ∀ (ch : List (String × Node)) (b2 : Node),
    getOrCreateBoltBucket (Node.bucket ch) segs = Except.ok b2 →
    ∀ q, valueAtSegs b2 q = valueAtSegs (Node.bucket ch) q := by
  induction segs with
  | nil =>
    intro ch b2 h q
    unfold getOrCreateBoltBucket at h
    cases h; rfl
  | cons s rest ih =>
    intro ch b2 h q
    unfold getOrCreateBoltBucket at h
    cases hl : lookupA ch s with
    | none =>
      simp only [hl] at h
      cases hr : getOrCreateBoltBucket (Node.bucket []) rest with
      | error e => simp only [hr] at h; exact Except.noConfusion h
      | ok b3 =>
        simp only [hr] at h
        cases h
        obtain ⟨ch3, rfl⟩ := getOrCreateBoltBucket_bucket rest [] b3 hr
        cases q with
        | nil => rfl
        | cons k qrest =>
          simp only [valueAtSegs, lookupA_setAssoc]
          by_cases hk : s = k
          · rw [if_pos hk, ← hk, hl]
            show valueAtSegs (Node.bucket ch3) qrest = none
            rw [ih [] (Node.bucket ch3) hr qrest, valueAtSegs_empty_bucket]
          · rw [if_neg hk]
    | some node =>
      cases node with
      | value d => simp only [hl] at h; exact Except.noConfusion h
      | bucket ch2 =>
        simp only [hl] at h
        cases hr : getOrCreateBoltBucket (Node.bucket ch2) rest with
        | error e => simp only [hr] at h; exact Except.noConfusion h
        | ok b3 =>
          simp only [hr] at h
          cases h
          obtain ⟨ch3, rfl⟩ := getOrCreateBoltBucket_bucket rest ch2 b3 hr
          cases q with
          | nil => rfl
          | cons k qrest =>
            simp only [valueAtSegs, lookupA_setAssoc]
            by_cases hk : s = k
            · rw [if_pos hk, ← hk, hl]
              show valueAtSegs (Node.bucket ch3) qrest =
                valueAtSegs (Node.bucket ch2) qrest
              exact ih ch2 (Node.bucket ch3) hr qrest
            · rw [if_neg hk]

theorem boltPut_at (segs : List Seg) :
    ∀ (ch : List (String × Node)) (key : Seg) (data : Bytes) (b2 : Node),
    boltPut (Node.bucket ch) segs key data = Except.ok b2 →
    valueAtSegs b2 (segs ++ [key]) = some data := by
  induction segs with
  | nil =>
    intro ch key data b2 h
    unfold boltPut at h
    cases hl : lookupA ch key with
    | none =>
      simp only [hl] at h
      cases h
      show valueAtSegs (Node.bucket (setAssoc ch key (Node.value data))) [key] = some data
      simp only [valueAtSegs]
      rw [lookupA_setAssoc, if_pos rfl]
      rfl
    | some node =>
      cases node with
      | bucket ch2 => simp only [hl] at h; exact Except.noConfusion h
      | value d =>
        simp only [hl] at h
        cases h
        show valueAtSegs (Node.bucket (setAssoc ch key (Node.value data))) [key] = some data
        simp only [valueAtSegs]
        rw [lookupA_setAssoc, if_pos rfl]
        rfl
  | cons s rest ih =>
    intro ch key data b2 h
    unfold boltPut at h
    cases hl : lookupA ch s with
    | none => simp only [hl] at h; exact Except.noConfusion h
    | some node =>
      cases node with
      | value d => simp only [hl] at h; exact Except.noConfusion h
      | bucket ch2 =>
        simp only [hl] at h
        cases hr : boltPut (Node.bucket ch2) rest key data with
        | error e => simp only [hr] at h; exact Except.noConfusion h
        | ok b3 =>
          simp only [hr] at h
          cases h
          obtain ⟨ch3, rfl⟩ := boltPut_bucket rest ch2 key data b3 hr
          show valueAtSegs (Node.bucket (setAssoc ch s (Node.bucket ch3)))
            (s :: (rest ++ [key])) = some data
          simp only [valueAtSegs]
          rw [lookupA_setAssoc, if_pos rfl]
          show valueAtSegs (Node.bucket ch3) (rest ++ [key]) = some data
          exact ih ch2 key data (Node.bucket ch3) hr

theorem boltPut_off (segs : List Seg) :
    ∀ (ch : List (String × Node)) (key : Seg) (data : Bytes) (b2 : Node) (q : List Seg),
    boltPut (Node.bucket ch) segs key data = Except.ok b2 →
    q ≠ segs ++ [key] →
    valueAtSegs b2 q = valueAtSegs (Node.bucket ch) q := by
  induction segs with
  | nil =>
    intro ch key data b2 q h hq
    unfold boltPut at h
    cases hl : lookupA ch key with
    | none =>
      simp only [hl] at h
      cases h
      cases q with
      | nil => rfl
      | cons k qrest =>
        simp only [valueAtSegs]
        rw [lookupA_setAssoc]
        by_cases hk : key = k
        · rw [if_pos hk]
          subst hk
          cases qrest with
          | nil => exact absurd rfl hq
          | cons a b => rw [hl]; rfl
        · rw [if_neg hk]
    | some node =>
      cases node with
      | bucket ch2 => simp only [hl] at h; exact Except.noConfusion h
      | value d =>
        simp only [hl] at h
        cases h
        cases q with
        | nil => rfl
        | cons k qrest =>
          simp only [valueAtSegs]
          rw [lookupA_setAssoc]
          by_cases hk : key = k
          · rw [if_pos hk]
            subst hk
            cases qrest with
            | nil => exact absurd rfl hq
            | cons a b => rw [hl]; rfl
          · rw [if_neg hk]
  | cons s rest ih =>
    intro ch key data b2 q h hq
    unfold boltPut at h
    cases hl : lookupA ch s with
    | none => simp only [hl] at h; exact Except.noConfusion h
    | some node =>
      cases node with
      | value d => simp only [hl] at h; exact Except.noConfusion h
      | bucket ch2 =>
        simp only [hl] at h
        cases hr : boltPut (Node.bucket ch2) rest key data with
        | error e => simp only [hr] at h; exact Except.noConfusion h
        | ok b3 =>
          simp only [hr] at h
          cases h
          obtain ⟨ch3, rfl⟩ := boltPut_bucket rest ch2 key data b3 hr
          cases q with
          | nil => rfl
          | cons k qrest =>
            simp only [valueAtSegs]
            rw [lookupA_setAssoc]
            by_cases hk : s = k
            · rw [if_pos hk, ← hk, hl]
              show valueAtSegs (Node.bucket ch3) qrest =
                valueAtSegs (Node.bucket ch2) qrest
              refine ih ch2 key data (Node.bucket ch3) qrest hr ?_
              intro he
              exact hq (by rw [← hk, he]; rfl)
            · rw [if_neg hk]

theorem boltDelete_at (segs : List Seg) :
    ∀ (ch : List (String × Node)) (key : Seg) (b2 : Node),
    boltDelete (Node.bucket ch) segs key = Except.ok b2 →
    valueAtSegs b2 (segs ++ [key]) = none := by
  induction segs with
  | nil =>
    intro ch key b2 h
    unfold boltDelete at h
    cases hl : lookupA ch key with
    | none =>
      simp only [hl] at h
      cases h
      show valueAtSegs (Node.bucket (removeAssoc ch key)) [key] = none
      simp only [valueAtSegs]
      rw [lookupA_removeAssoc, if_pos rfl]
    | some node =>
      cases node with
      | bucket ch2 => simp only [hl] at h; exact Except.noConfusion h
      | value d =>
        simp only [hl] at h
        cases h
        show valueAtSegs (Node.bucket (removeAssoc ch key)) [key] = none
        simp only [valueAtSegs]
        rw [lookupA_removeAssoc, if_pos rfl]
  | cons s rest ih =>
    intro ch key b2 h
    unfold boltDelete at h
    cases hl : lookupA ch s with
    | none => simp only [hl] at h; exact Except.noConfusion h
    | some node =>
      cases node with
      | value d => simp only [hl] at h; exact Except.noConfusion h
      | bucket ch2 =>
        simp only [hl] at h
        cases hr : boltDelete (Node.bucket ch2) rest key with
        | error e => simp only [hr] at h; exact Except.noConfusion h
        | ok b3 =>
          simp only [hr] at h
          cases h
          obtain ⟨ch3, rfl⟩ := boltDelete_bucket rest ch2 key b3 hr
          show valueAtSegs (Node.bucket (setAssoc ch s (Node.bucket ch3)))
            (s :: (rest ++ [key])) = none
          simp only [valueAtSegs]
          rw [lookupA_setAssoc, if_pos rfl]
          show valueAtSegs (Node.bucket ch3) (rest ++ [key]) = none
          exact ih ch2 key (Node.bucket ch3) hr

theorem boltDelete_off (segs : List Seg) :
    ∀ (ch : List (String × Node)) (key : Seg) (b2 : Node) (q : List Seg),
    boltDelete (Node.bucket ch) segs key = Except.ok b2 →
    q ≠ segs ++ [key] →
    valueAtSegs b2 q = valueAtSegs (Node.bucket ch) q := by
  induction segs with
  | nil =>
    intro ch key b2 q h hq
    unfold boltDelete at h
    cases hl : lookupA ch key with
    | none =>
      simp only [hl] at h
      cases h
      cases q with
      | nil => rfl
      | cons k qrest =>
        simp only [valueAtSegs]
        rw [lookupA_removeAssoc]
        by_cases hk : key = k
        · rw [if_pos hk]
          subst hk
          cases qrest with
          | nil => exact absurd rfl hq
          | cons a b => rw [hl]
        · rw [if_neg hk]
    | some node =>
      cases node with
      | bucket ch2 => simp only [hl] at h; exact Except.noConfusion h
      | value d =>
        simp only [hl] at h
        cases h
        cases q with
        | nil => rfl
        | cons k qrest =>
          simp only [valueAtSegs]
          rw [lookupA_removeAssoc]
          by_cases hk : key = k
          · rw [if_pos hk]
            subst hk
            cases qrest with
            | nil => exact absurd rfl hq
            | cons a b => rw [hl]; rfl
          · rw [if_neg hk]
  | cons s rest ih =>
    intro ch key b2 q h hq
    unfold boltDelete at h
    cases hl : lookupA ch s with
    | none => simp only [hl] at h; exact Except.noConfusion h
    | some node =>
      cases node with
      | value d => simp only [hl] at h; exact Except.noConfusion h
      | bucket ch2 =>
        simp only [hl] at h
        cases hr : boltDelete (Node.bucket ch2) rest key with
        | error e => simp only [hr] at h; exact Except.noConfusion h
        | ok b3 =>
          simp only [hr] at h
          cases h
          obtain ⟨ch3, rfl⟩ := boltDelete_bucket rest ch2 key b3 hr
          cases q with
          | nil => rfl
          | cons k qrest =>
            simp only [valueAtSegs]
            rw [lookupA_setAssoc]
            by_cases hk : s = k
            · rw [if_pos hk, ← hk, hl]
              show valueAtSegs (Node.bucket ch3) qrest =
                valueAtSegs (Node.bucket ch2) qrest
              refine ih ch2 key (Node.bucket ch3) qrest hr ?_
              intro he
              exact hq (by rw [← hk, he]; rfl)
            · rw [if_neg hk]

theorem getOrCreateBoltBucket_walk (l1 : List Seg) :
    ∀ (l2 : List Seg) (ch : List (String × Node)) (b2 : Node),
    getOrCreateBoltBucket (Node.bucket ch) (l1 ++ l2) = Except.ok b2 →
    (walkBuckets b2 l1).isSome = true := by
  induction l1 with
  | nil =>
    intro l2 ch b2 h
    obtain ⟨ch2, rfl⟩ := getOrCreateBoltBucket_bucket l2 ch b2 h
    rfl
  | cons s l1x ih =>
    intro l2 ch b2 h
    rw [List.cons_append] at h
    unfold getOrCreateBoltBucket at h
    cases hl : lookupA ch s with
    | none =>
      simp only [hl] at h
      cases hr : getOrCreateBoltBucket (Node.bucket []) (l1x ++ l2) with
      | error e => simp only [hr] at h; exact Except.noConfusion h
      | ok b3 =>
        simp only [hr] at h
        cases h
        obtain ⟨ch3, rfl⟩ := getOrCreateBoltBucket_bucket (l1x ++ l2) [] b3 hr
        simp only [walkBuckets]
        rw [lookupA_setAssoc, if_pos rfl]
        exact ih l2 [] (Node.bucket ch3) hr
    | some node =>
      cases node with
      | value d => simp only [hl] at h; exact Except.noConfusion h
      | bucket ch2 =>
        simp only [hl] at h
        cases hr : getOrCreateBoltBucket (Node.bucket ch2) (l1x ++ l2) with
        | error e => simp only [hr] at h; exact Except.noConfusion h
        | ok b3 =>
          simp only [hr] at h
          cases h
          obtain ⟨ch3, rfl⟩ := getOrCreateBoltBucket_bucket (l1x ++ l2) ch2 b3 hr
          simp only [walkBuckets]
          rw [lookupA_setAssoc, if_pos rfl]
          exact ih l2 ch2 (Node.bucket ch3) hr

theorem dropLast_append_getLastD (t : List Seg) (d : Seg) (h : t ≠ []) :
    t.dropLast ++ [t.getLastD d] = t := by
  have h2 := List.dropLast_append_getLast h
  rw [List.getLastD_eq_getLast?, List.getLast?_eq_getLast t h]
  simpa using h2

theorem getLastD_ne_nil (l : List Seg) (d1 d2 : Seg) (h : l ≠ []) :
    l.getLastD d1 = l.getLastD d2 := by
  rw [List.getLastD_eq_getLast?, List.getLastD_eq_getLast?,
    List.getLast?_eq_getLast l h]
  rfl

theorem splitPath_eq (p : String) :
    splitPath p = "/" :: (splitPath p).drop 1 := rfl

theorem canonicalPath_inj {p q : String} (hp : canonicalPath p)
    (hq : canonicalPath q) (h : splitPath p = splitPath q) : p = q := by
  unfold canonicalPath at hp hq
  rw [hp, hq, h]

theorem canonicalPath_tail_ne {p q : String} (hp : canonicalPath p)
    (hq : canonicalPath q) (hne : p ≠ q) :
    (splitPath p).drop 1 ≠ (splitPath q).drop 1 := by
  intro h
  apply hne
  apply canonicalPath_inj hp hq
  rw [splitPath_eq p, splitPath_eq q, h]

theorem valueAtSegs_walk (t : List Seg) :
    ∀ (ch : List (String × Node)) (v : Bytes) (d : Seg),
    valueAtSegs (Node.bucket ch) t = some v →
    ∃ ch2, walkBuckets (Node.bucket ch) t.dropLast = some (Node.bucket ch2) ∧
      lookupA ch2 (t.getLastD d) = some (Node.value v) := by
  induction t with
  | nil =>
    intro ch v d h
    simp [valueAtSegs] at h
  | cons k rest ih =>
    intro ch v d h
    simp only [valueAtSegs] at h
    cases hl : lookupA ch k with
    | none => rw [hl] at h; exact Option.noConfusion h
    | some node =>
      cases node with
      | value dv =>
        rw [hl] at h
        cases rest with
        | nil =>
          simp only [List.isEmpty_nil, if_pos rfl] at h
          cases h
          exact ⟨ch, rfl, hl⟩
        | cons a b => simp at h
      | bucket ch2 =>
        rw [hl] at h
        have hrest : rest ≠ [] := by
          intro he
          rw [he] at h
          simp [valueAtSegs] at h
        obtain ⟨ch3, hw, hlast⟩ := ih ch2 v k h
        cases rest with
        | nil => exact absurd rfl hrest
        | cons a b =>
          refine ⟨ch3, ?_, ?_⟩
          · show walkBuckets (Node.bucket ch) (k :: (a :: b).dropLast) =
              some (Node.bucket ch3)
            simp only [walkBuckets, hl]
            exact hw
          · rw [List.getLastD_cons]
            exact hlast

theorem getOrCreateBoltBucket_values_any (segs : List Seg) (b b2 : Node)
    (h : getOrCreateBoltBucket b segs = Except.ok b2) :
    ∀ q, valueAtSegs b2 q = valueAtSegs b q := by
  cases b with
  | bucket ch => exact getOrCreateBoltBucket_values segs ch b2 h
  | value d =>
    cases segs with
    | nil => cases h; intro q; rfl
    | cons s rest => exact Except.noConfusion h

theorem getOrCreateBoltBucket_walk_any (l1 l2 : List Seg) (b b2 : Node)
    (h : getOrCreateBoltBucket b (l1 ++ l2) = Except.ok b2) :
    (walkBuckets b2 l1).isSome = true := by
  cases b with
  | bucket ch => exact getOrCreateBoltBucket_walk l1 l2 ch b2 h
  | value d =>
    cases l1 with
    | nil =>
      cases l2 with
      | nil => cases h; rfl
      | cons a r => exact Except.noConfusion h
    | cons a r => exact Except.noConfusion h

/-- Claim C1 counterexample: a PUT carrying a non-empty body whose path
has depth 1 (/a, directly under the root container) is not rejected:
the code stores the value directly in the root bucket, writes its
metadata record, and answers 201 Created (the repository's own tests
PUT depth-1 values and expect success). -/
theorem C1_counterexample :
    (putBucketOrValue initialDB reqPutA).2.status = 201 ∧
    valueAtPath (putBucketOrValue initialDB reqPutA).1 "/a" =
      some [102, 111, 111] ∧
    (getHeaderValue (putBucketOrValue initialDB reqPutA).1 "/a").isSome = true := by
  refine ⟨by decide, by decide, by decide⟩

/-- Claim C1 amended: the body-carrying PUT that is rejected with a 400
and writes nothing is the one addressed to the root path itself (split
path ["/"], depth 0); a body-carrying PUT at depth 1 is accepted — it
stores the value directly in the root container (201 when the path is
new).  A bodyless PUT at depth 1 still creates a top-level container. -/
theorem C1_amended_root_put :
    (∀ (db : DB) (req : Request),
      badPutOrDeleteHeaders req = none →
      req.contentLength > 0 →
      checkIfMatch (getHeaderValue db req.path) req = true →
      splitPath req.path = ["/"] →
      putBucketOrValue db req = (db, errResponse 400)) ∧
    (∀ (db : DB) (req : Request) (ch : List (String × Node)) (s : Seg),
      badPutOrDeleteHeaders req = none →
      req.contentLength > 0 →
      (req.body.length : Int) ≥ req.contentLength →
      getHeaderValue db req.path = none →
      req.ifMatch = none →
      splitPath req.path = ["/", s] →
      db.root = Node.bucket ch →
      lookupA ch s = none →
      (putBucketOrValue db req).2.status = 201 ∧
      valueAtPath (putBucketOrValue db req).1 req.path =
        some (req.body.take req.contentLength.toNat)) := by
  constructor
  · intro db req hbad hcl hcim hsplit
    simp [putBucketOrValue, hbad, hcl, hcim, hsplit]
  · intro db req ch s hbad hcl hblen hhdr him hsplit hroot hlook
    have hcim2 : checkIfMatch none req = true := by
      simp [checkIfMatch, him]
    have hnblen : ¬ ((req.body.length : Int) < req.contentLength) :=
      not_lt.mpr hblen
    have hres : putBucketOrValue db req =
        ({ root := Node.bucket (setAssoc ch s
             (Node.value (req.body.take req.contentLength.toNat))),
           headers := setAssoc db.headers req.path
             (headerSet (headerSet (extractHeader req) "ETag"
               (etag (req.body.take req.contentLength.toNat)))
               "Last-Modified" req.now) },
         { status := 201,
           headers := headerSet (headerSet (headerSet [] "ETag"
             (etag (req.body.take req.contentLength.toNat)))
             "Last-Modified" req.now) "Location" req.path,
           body := [], listing := none }) := by
      simp only [putBucketOrValue, hbad, if_pos hcl, hhdr, hcim2, Option.isSome_none,
        Bool.not_true, Bool.false_eq_true, if_false, hsplit, hroot]
      simp [getOrCreateBoltBucket, boltPut, hlook, if_neg hnblen]
    rw [hres]
    refine ⟨rfl, ?_⟩
    show valueAtSegs (Node.bucket (setAssoc ch s
      (Node.value (req.body.take req.contentLength.toNat))))
      ((splitPath req.path).drop 1) = _
    rw [hsplit]
    show valueAtSegs _ [s] = _
    simp only [valueAtSegs]
    rw [lookupA_setAssoc, if_pos rfl]
    rfl

/-- Witness for C1: the amended theorem applied to concrete requests —
PUT / with a body is rejected 400 on the initial database, and PUT /a
with body "foo" answers 201. -/
theorem C1_witness :
    putBucketOrValue initialDB reqPutRoot = (initialDB, errResponse 400) ∧
    (putBucketOrValue initialDB reqPutA).2.status = 201 :=
  ⟨C1_amended_root_put.1 initialDB reqPutRoot (by decide) (by decide) (by decide)
     (by decide),
   (C1_amended_root_put.2 initialDB reqPutA [] "a" (by decide) (by decide)
     (by decide) (by decide) rfl (by decide) rfl rfl).1⟩

/-- Claim C2 counterexample: PUT /a with a non-empty body and no
Content-Length header (transport-reported ContentLength -1) is answered
200, never 411, and it does mutate the namespace: it creates the
container /a (while writing no value and no metadata record). -/
theorem C2_counterexample :
    (putBucketOrValue initialDB reqPutANoLen).2.status = 200 ∧
    (walkBuckets (putBucketOrValue initialDB reqPutANoLen).1.root ["a"]).isSome
      = true ∧
    getHeaderValue (putBucketOrValue initialDB reqPutANoLen).1 "/a" = none := by
  refine ⟨by decide, by decide, by decide⟩

/-- Claim C2 amended: the code has no 411 path.  A PUT whose declared
ContentLength is not positive — which is what the handler sees when a
body arrives without Content-Length — is handled as a bodyless
container-creation request: the reply is 200 (500 when a path segment
collides with an existing value), the metadata table is untouched, no
value bytes are written anywhere in the tree, and the body is ignored. -/
theorem C2_amended_no_411 :
    ∀ (db : DB) (req : Request),
      req.contentLength ≤ 0 →
      badPutOrDeleteHeaders req = none →
      ((putBucketOrValue db req).2.status = 200 ∨
        (putBucketOrValue db req).2.status = 500) ∧
      (putBucketOrValue db req).1.headers = db.headers ∧
      (∀ q, valueAtSegs (putBucketOrValue db req).1.root q =
        valueAtSegs db.root q) ∧
      (∀ b : Bytes, putBucketOrValue db { req with body := b } =
        putBucketOrValue db req) := by
  intro db req hcl hbad
  have hncl : ¬ (req.contentLength > 0) := not_lt.mpr hcl
  have hred : ∀ b : Bytes, putBucketOrValue db { req with body := b } =
      (match getOrCreateBoltBucket db.root ((splitPath req.path).drop 1) with
       | Except.error _ => (db, errResponse 500)
       | Except.ok root1 => ({ root := root1, headers := db.headers },
           { status := 200, headers := [], body := [], listing := none })) := by
    intro b
    simp only [putBucketOrValue]
    rw [show badPutOrDeleteHeaders { req with body := b } =
      badPutOrDeleteHeaders req from rfl, hbad]
    rw [if_neg hncl]
  have hredr : putBucketOrValue db req =
      (match getOrCreateBoltBucket db.root ((splitPath req.path).drop 1) with
       | Except.error _ => (db, errResponse 500)
       | Except.ok root1 => ({ root := root1, headers := db.headers },
           { status := 200, headers := [], body := [], listing := none })) := by
    have := hred req.body
    simpa using this
  cases hoc : getOrCreateBoltBucket db.root ((splitPath req.path).drop 1) with
  | error e =>
    rw [hredr, hoc]
    refine ⟨Or.inr rfl, rfl, fun q => rfl, fun b => ?_⟩
    rw [hred b, hoc]
  | ok root1 =>
    rw [hredr, hoc]
    refine ⟨Or.inl rfl, rfl, ?_, fun b => ?_⟩
    · exact getOrCreateBoltBucket_values_any _ db.root root1 hoc
    · rw [hred b, hoc]

/-- Witness for C2: the amended theorem applied to PUT /a with a body
and ContentLength -1 on the initial database: the metadata table is
untouched. -/
theorem C2_witness :
    (putBucketOrValue initialDB reqPutANoLen).1.headers = initialDB.headers :=
  (C2_amended_no_411 initialDB reqPutANoLen (by decide) (by decide)).2.1

/-- Claim C3 counterexample: DELETE /a (depth 1, directly under root) on
a database holding the value /a answers 204, not 400, and it deletes the
value and its metadata record. -/
theorem C3_counterexample :
    (deleteBucketOrKey dbWithA reqDelA).2.status = 204 ∧
    valueAtPath (deleteBucketOrKey dbWithA reqDelA).1 "/a" = none ∧
    getHeaderValue (deleteBucketOrKey dbWithA reqDelA).1 "/a" = none := by
  refine ⟨by decide, by decide, by decide⟩

/-- Claim C3 amended: the DELETE that always answers 400 and never
mutates is the one whose split path has fewer than two parts — only the
root path itself (depth 0).  Depth-1 DELETEs are processed normally. -/
theorem C3_amended_delete_root :
    ∀ (db : DB) (req : Request),
      badPutOrDeleteHeaders req = none →
      (splitPath req.path).length < 2 →
      deleteBucketOrKey db req = (db, errResponse 400) := by
  intro db req hbad hlen
  simp only [deleteBucketOrKey, hbad, if_pos hlen]

/-- Witness for C3: DELETE of the root path on the initial database is
rejected with 400 and the database is unchanged. -/
theorem C3_witness :
    deleteBucketOrKey initialDB reqDelRoot = (initialDB, errResponse 400) :=
  C3_amended_delete_root initialDB reqDelRoot (by decide) (by decide)

/-- Claim C4, evaluated at the failing input: a bodyless PUT /foo
creates the container (200), but DELETE /foo then answers 404 and
removes nothing — containers never get a metadata record, and the DELETE
handler requires one before it will delete anything, so no container can
ever be deleted (the repository's README promises that DELETE removes
buckets as well as values). -/
theorem C4_bucket_delete_404 :
    (putBucketOrValue initialDB reqMkFoo).2.status = 200 ∧
    (walkBuckets dbWithFooBucket.root ["foo"]).isSome = true ∧
    (deleteBucketOrKey dbWithFooBucket reqDelFoo).2.status = 404 ∧
    (deleteBucketOrKey dbWithFooBucket reqDelFoo).1 = dbWithFooBucket := by
  refine ⟨by decide, by decide, by decide, rfl⟩

/-- Claim C5 counterexample: the stored record for the root path "/"
exists (the startup-written empty object) yet carries no ETag; for a
request with If-Match: * the claim says the precondition holds (a record
exists and "*" is listed), but checkIfMatch returns false. -/
theorem C5_counterexample :
    (getHeaderValue initialDB "/").isSome = true ∧
    checkIfMatchClaim (getHeaderValue initialDB "/") reqStar = true ∧
    checkIfMatch (getHeaderValue initialDB "/") reqStar = false := by
  refine ⟨by decide, by decide, by decide⟩

/-- Claim C5 amended: the If-Match precondition holds exactly as
follows — header absent: holds; no stored record: holds iff "*" is not
listed; stored record present: holds iff the stored ETag is non-empty
and some listed value equals "*" or equals the stored ETag exactly. -/
theorem C5_amended_ifmatch :
    ∀ (header : Option HttpHeader) (req : Request),
      checkIfMatch header req = true ↔ ifMatchAmended header req := by
  intro header req
  cases header with
  | none =>
    cases him : req.ifMatch with
    | none => simp [checkIfMatch, ifMatchAmended, him]
    | some ms =>
      simp [checkIfMatch, ifMatchAmended, him, List.any_eq_true]
      exact ⟨fun h hm => h "*" hm rfl, fun h x hx he => h (he ▸ hx)⟩
  | some h =>
    cases him : req.ifMatch with
    | none => simp [checkIfMatch, ifMatchAmended, him]
    | some ms =>
      simp only [checkIfMatch, ifMatchAmended, him]
      by_cases he : headerGet h "ETag" = ""
      · simp [he]
      · simp only [he, ne_eq, not_false_eq_true, if_true, List.any_eq_true,
          Bool.or_eq_true, beq_iff_eq, true_and]
        constructor
        · rintro ⟨m, hm, hor⟩
          cases hor with
          | inl h1 => exact Or.inr (h1 ▸ hm)
          | inr h2 => exact Or.inl (h2 ▸ hm)
        · rintro (hstar | hetag)
          · exact ⟨"*", hstar, Or.inr rfl⟩
          · exact ⟨headerGet h "ETag", hetag, Or.inl rfl⟩

/-- Claim C6 counterexample: with the value /a stored under ETag "t", a
bodyless PUT /a carrying the failing If-Match value "x" is answered 500
(container-creation collides with the stored value), not 412 — bodyless
PUTs skip the If-Match check entirely. -/
theorem C6_counterexample :
    checkIfMatch (getHeaderValue dbWithA "/a") reqPutABodylessStale = false ∧
    (putBucketOrValue dbWithA reqPutABodylessStale).2.status = 500 := by
  refine ⟨by decide, by decide⟩

/-- Claim C6 amended: every PUT with a positive declared Content-Length
and every DELETE of a path of depth at least 1 whose If-Match
precondition fails is answered 412 with the stored state exactly
unchanged; a PUT without a positive Content-Length never runs the
If-Match check. -/
theorem C6_amended_412 :
    (∀ (db : DB) (req : Request),
      badPutOrDeleteHeaders req = none →
      req.contentLength > 0 →
      checkIfMatch (getHeaderValue db req.path) req = false →
      putBucketOrValue db req = (db, errResponse 412)) ∧
    (∀ (db : DB) (req : Request),
      badPutOrDeleteHeaders req = none →
      2 ≤ (splitPath req.path).length →
      checkIfMatch (getHeaderValue db req.path) req = false →
      deleteBucketOrKey db req = (db, errResponse 412)) := by
  constructor
  · intro db req hbad hcl hcim
    simp only [putBucketOrValue, hbad, if_pos hcl, hcim, Bool.not_false, if_true]
  · intro db req hbad hlen hcim
    have hnot : ¬ ((splitPath req.path).length < 2) := not_lt.mpr hlen
    simp only [deleteBucketOrKey, hbad, if_neg hnot, hcim, Bool.not_false, if_true]

/-- Witness for C6: on the database holding /a under ETag "t", PUT /a
with body and If-Match "x" and DELETE /a with If-Match "x" both answer
412 and leave the database untouched. -/
theorem C6_witness :
    putBucketOrValue dbWithA reqPutAStale = (dbWithA, errResponse 412) ∧
    deleteBucketOrKey dbWithA reqDelAStale = (dbWithA, errResponse 412) :=
  ⟨C6_amended_412.1 dbWithA reqPutAStale (by decide) (by decide) (by decide),
   C6_amended_412.2 dbWithA reqDelAStale (by decide) (by decide) (by decide)⟩

/-- Claim C10 counterexample: a PUT with ContentLength 0 but an
If-None-Match header is answered 412 by badPutOrDeleteHeaders, not 200,
and nothing is created. -/
theorem C10_counterexample :
    (putBucketOrValue initialDB reqPutAWithINM).2.status = 412 ∧
    (putBucketOrValue initialDB reqPutAWithINM).1 = initialDB := by
  refine ⟨by decide, rfl⟩

/-- Claim C10 amended: a PUT whose declared Content-Length is not
positive and which passes the shared header checks (no If-None-Match,
size cap irrelevant) is treated as container creation regardless of the
actual body: the result is independent of the body and of If-Match, no
value and no metadata record is stored, and either every path segment
(the final one included) now resolves to a container and the reply is
200, or a segment collided with an existing value and the reply is 500
with the database unchanged. -/
theorem C10_amended_bodyless_put :
    ∀ (db : DB) (req : Request),
      req.contentLength ≤ 0 →
      badPutOrDeleteHeaders req = none →
      (∀ (b : Bytes) (im : Option (List String)),
        putBucketOrValue db { req with body := b, ifMatch := im } =
          putBucketOrValue db req) ∧
      (∀ e, getOrCreateBoltBucket db.root ((splitPath req.path).drop 1) =
          Except.error e →
        putBucketOrValue db req = (db, errResponse 500)) ∧
      (∀ root1, getOrCreateBoltBucket db.root ((splitPath req.path).drop 1) =
          Except.ok root1 →
        putBucketOrValue db req =
          ({ root := root1, headers := db.headers },
           { status := 200, headers := [], body := [], listing := none }) ∧
        (∀ l1 l2, (splitPath req.path).drop 1 = l1 ++ l2 →
          (walkBuckets root1 l1).isSome = true)) ∧
      (∀ q, valueAtSegs (putBucketOrValue db req).1.root q =
        valueAtSegs db.root q) := by
  intro db req hcl hbad
  have hncl : ¬ (req.contentLength > 0) := not_lt.mpr hcl
  have hred : ∀ (b : Bytes) (im : Option (List String)),
      putBucketOrValue db { req with body := b, ifMatch := im } =
      (match getOrCreateBoltBucket db.root ((splitPath req.path).drop 1) with
       | Except.error _ => (db, errResponse 500)
       | Except.ok root1 => ({ root := root1, headers := db.headers },
           { status := 200, headers := [], body := [], listing := none })) := by
    intro b im
    simp only [putBucketOrValue]
    rw [show badPutOrDeleteHeaders { req with body := b, ifMatch := im } =
      badPutOrDeleteHeaders req from rfl, hbad]
    rw [if_neg hncl]
  have hredr : putBucketOrValue db req =
      (match getOrCreateBoltBucket db.root ((splitPath req.path).drop 1) with
       | Except.error _ => (db, errResponse 500)
       | Except.ok root1 => ({ root := root1, headers := db.headers },
           { status := 200, headers := [], body := [], listing := none })) := by
    have := hred req.body req.ifMatch
    simpa using this
  refine ⟨fun b im => by rw [hred b im, hredr], ?_, ?_, ?_⟩
  · intro e hoc
    rw [hredr, hoc]
  · intro root1 hoc
    rw [hredr, hoc]
    refine ⟨rfl, fun l1 l2 hsplit => ?_⟩
    rw [hsplit] at hoc
    exact getOrCreateBoltBucket_walk_any l1 l2 db.root root1 hoc
  · intro q
    rw [hredr]
    cases hoc : getOrCreateBoltBucket db.root ((splitPath req.path).drop 1) with
    | error e => rfl
    | ok root1 =>
      show valueAtSegs root1 q = valueAtSegs db.root q
      exact getOrCreateBoltBucket_values_any _ db.root root1 hoc q

/-- Witness for C10: the amended theorem applied to the bodyless PUT
/x/y on the initial database: both containers are created and the reply
is 200 with nothing else changed. -/
theorem C10_witness :
    putBucketOrValue initialDB reqMkXY =
      ({ root := Node.bucket [("x", Node.bucket [("y", Node.bucket [])])],
         headers := initialDB.headers },
       { status := 200, headers := [], body := [], listing := none }) :=
  ((C10_amended_bodyless_put initialDB reqMkXY (by decide) (by decide)).2.2.1
    (Node.bucket [("x", Node.bucket [("y", Node.bucket [])])]) rfl).1

theorem dropLast_cons_of_ne_nil (t : List Seg) (h : t ≠ []) :
    ("/" :: t).dropLast = "/" :: t.dropLast := by
  cases t with
  | nil => exact absurd rfl h
  | cons a r => rfl

theorem putBucketOrValue_cases (db : DB) (req : Request) :
    (putBucketOrValue db req).1 = db ∨
    (req.contentLength ≤ 0 ∧ ∃ root1,
       getOrCreateBoltBucket db.root ((splitPath req.path).drop 1) =
         Except.ok root1 ∧
       (putBucketOrValue db req).1 = { root := root1, headers := db.headers }) ∨
    (req.contentLength > 0 ∧ (splitPath req.path).drop 1 ≠ [] ∧ ∃ root1 root2,
       getOrCreateBoltBucket db.root ((splitPath req.path).dropLast.drop 1) =
         Except.ok root1 ∧
       boltPut root1 ((splitPath req.path).dropLast.drop 1)
         ((splitPath req.path).getLastD "")
         (req.body.take req.contentLength.toNat) = Except.ok root2 ∧
       (putBucketOrValue db req).1 =
         { root := root2,
           headers := setAssoc db.headers req.path
             (headerSet (headerSet (extractHeader req) "ETag"
               (etag (req.body.take req.contentLength.toNat)))
               "Last-Modified" req.now) }) := by
  cases hbad : badPutOrDeleteHeaders req with
  | some st =>
    left
    simp only [putBucketOrValue, hbad]
  | none =>
    by_cases hcl : req.contentLength > 0
    · cases hcim : checkIfMatch (getHeaderValue db req.path) req with
      | false =>
        left
        simp only [putBucketOrValue, hbad, if_pos hcl, hcim, Bool.not_false,
          if_true]
      | true =>
        by_cases hpe : ((splitPath req.path).dropLast).isEmpty
        · left
          simp only [putBucketOrValue, hbad, if_pos hcl, hcim, Bool.not_true,
            Bool.false_eq_true, if_false, if_pos hpe]
        · have hstep : putBucketOrValue db req =
              (match getOrCreateBoltBucket db.root
                  ((splitPath req.path).dropLast.drop 1) with
               | Except.error _ => (db, errResponse 500)
               | Except.ok root1 =>
                 if (req.body.length : Int) < req.contentLength then
                   (db, errResponse 400)
                 else
                   match boltPut root1 ((splitPath req.path).dropLast.drop 1)
                     ((splitPath req.path).getLastD "")
                     (req.body.take req.contentLength.toNat) with
                   | Except.error _ => (db, errResponse 500)
                   | Except.ok root2 =>
                     ({ root := root2,
                        headers := setAssoc db.headers req.path
                          (headerSet (headerSet (extractHeader req) "ETag"
                            (etag (req.body.take req.contentLength.toNat)))
                            "Last-Modified" req.now) },
                      if (getHeaderValue db req.path).isSome then
                        { status := 204,
                          headers := headerSet (headerSet [] "ETag"
                            (etag (req.body.take req.contentLength.toNat)))
                            "Last-Modified" req.now,
                          body := [], listing := none }
                      else
                        { status := 201,
                          headers := headerSet (headerSet (headerSet [] "ETag"
                            (etag (req.body.take req.contentLength.toNat)))
                            "Last-Modified" req.now) "Location" req.path,
                          body := [], listing := none })) := by
            simp only [putBucketOrValue, hbad, if_pos hcl, hcim, Bool.not_true,
              Bool.false_eq_true, if_false, if_neg hpe]
          have htail : (splitPath req.path).drop 1 ≠ [] := by
            intro he
            apply hpe
            rw [splitPath_eq req.path, he]
            rfl
          rw [hstep]
          cases hoc : getOrCreateBoltBucket db.root
              ((splitPath req.path).dropLast.drop 1) with
          | error e => left; rfl
          | ok root1 =>
            by_cases hbl : (req.body.length : Int) < req.contentLength
            · left
              simp only [if_pos hbl]
            · simp only [if_neg hbl]
              cases hput : boltPut root1 ((splitPath req.path).dropLast.drop 1)
                  ((splitPath req.path).getLastD "")
                  (req.body.take req.contentLength.toNat) with
              | error e => left; rfl
              | ok root2 =>
                right; right
                exact ⟨hcl, htail, root1, root2, rfl, hput, rfl⟩
    · have hle : req.contentLength ≤ 0 := not_lt.mp hcl
      have hstep : putBucketOrValue db req =
          (match getOrCreateBoltBucket db.root ((splitPath req.path).drop 1) with
           | Except.error _ => (db, errResponse 500)
           | Except.ok root1 => ({ root := root1, headers := db.headers },
               { status := 200, headers := [], body := [], listing := none })) := by
        simp only [putBucketOrValue, hbad, if_neg hcl]
      rw [hstep]
      cases hoc : getOrCreateBoltBucket db.root ((splitPath req.path).drop 1) with
      | error e => left; rfl
      | ok root1 =>
        right; left
        exact ⟨hle, root1, rfl, rfl⟩

theorem deleteBucketOrKey_cases (db : DB) (req : Request) :
    (deleteBucketOrKey db req).1 = db ∨
    ((splitPath req.path).drop 1 ≠ [] ∧ ∃ root2,
       boltDelete db.root ((splitPath req.path).dropLast.drop 1)
         ((splitPath req.path).getLastD "") = Except.ok root2 ∧
       (deleteBucketOrKey db req).1 =
         { root := root2, headers := removeAssoc db.headers req.path }) := by
  cases hbad : badPutOrDeleteHeaders req with
  | some st =>
    left
    simp only [deleteBucketOrKey, hbad]
  | none =>
    by_cases hlen : (splitPath req.path).length < 2
    · left
      simp only [deleteBucketOrKey, hbad, if_pos hlen]
    · cases hcim : checkIfMatch (getHeaderValue db req.path) req with
      | false =>
        left
        simp only [deleteBucketOrKey, hbad, if_neg hlen, hcim, Bool.not_false,
          if_true]
      | true =>
        have htail : (splitPath req.path).drop 1 ≠ [] := by
          intro he
          apply hlen
          rw [splitPath_eq req.path, he]
          decide
        cases hh : getHeaderValue db req.path with
        | none =>
          left
          have hcim2 : checkIfMatch none req = true := hh ▸ hcim
          simp only [deleteBucketOrKey, hbad, if_neg hlen, hh, hcim2,
            Bool.not_true, Bool.false_eq_true, if_false]
        | some hd =>
          have hcim2 : checkIfMatch (some hd) req = true := hh ▸ hcim
          have hstep : deleteBucketOrKey db req =
              (match getBoltBucket db (splitPath req.path).dropLast with
               | none => (db, errResponse 500)
               | some _ =>
                 match boltDelete db.root ((splitPath req.path).dropLast.drop 1)
                   ((splitPath req.path).getLastD "") with
                 | Except.error _ => (db, errResponse 500)
                 | Except.ok root2 =>
                   ({ root := root2,
                      headers := removeAssoc db.headers req.path },
                    { status := 204, headers := [], body := [],
                      listing := none })) := by
            simp only [deleteBucketOrKey, hbad, if_neg hlen, hh, hcim2,
              Bool.not_true, Bool.false_eq_true, if_false]
          rw [hstep]
          cases hgb : getBoltBucket db (splitPath req.path).dropLast with
          | none => left; rfl
          | some b =>
            cases hdel : boltDelete db.root
                ((splitPath req.path).dropLast.drop 1)
                ((splitPath req.path).getLastD "") with
            | error e => left; rfl
            | ok root2 =>
              right
              exact ⟨htail, root2, rfl, rfl⟩

/-- Claim C7 counterexample: the completed request PUT /a/ (trailing
slash, Content-Length 3, body "foo") stores the value at segment path
["a"] but keys the metadata record by the literal escaped path "/a/";
afterwards the path "/a" (distinct from "/") holds a value entry in the
namespace tree while no metadata record keyed "/a" exists, so the
claimed equivalence fails at "/a". -/
theorem C7_counterexample :
    (putBucketOrValue initialDB reqPutASlash).2.status = 201 ∧
    valueAtPath dbAfterSlashPut "/a" = some [102, 111, 111] ∧
    getHeaderValue dbAfterSlashPut "/a" = none := by
  refine ⟨by decide, by decide, by decide⟩

/-- Claim C7 amended: restricted to canonical paths the invariant is
real: the initial database satisfies it, and every PUT and every DELETE
whose request path is canonical preserves it — for every canonical path
p other than "/", a value entry exists in the namespace tree at p
exactly when a metadata record keyed p exists; both sides of the pair
are written (and deleted) by the same transaction.  (GET and HEAD do not
mutate the store.)  Aliased spellings of the same tree position (such as
"/a/" versus "/a") break the unrestricted claim, as the counterexample
shows. -/
theorem C7_amended_invariant :
    StoreInv initialDB ∧
    (∀ (db : DB) (req : Request), StoreInv db → canonicalPath req.path →
      StoreInv (putBucketOrValue db req).1) ∧
    (∀ (db : DB) (req : Request), StoreInv db → canonicalPath req.path →
      StoreInv (deleteBucketOrKey db req).1) := by
  refine ⟨?_, ?_, ?_⟩
  · intro p hcp hne
    have hv : valueAtPath initialDB p = none := valueAtSegs_empty_bucket _
    have hh : getHeaderValue initialDB p = none := by
      show lookupA [("/", [])] p = none
      simp only [lookupA]
      rw [if_neg (fun he => hne he.symm)]
    rw [hv, hh]
    exact Iff.rfl
  · intro db req hinv hcp
    rcases putBucketOrValue_cases db req with hsame |
      ⟨hle, root1, hoc, hres⟩ | ⟨hcl, htail, root1, root2, hoc, hput, hres⟩
    · rw [hsame]; exact hinv
    · rw [hres]
      intro q hq hqne
      show (valueAtSegs root1 ((splitPath q).drop 1)).isSome = true ↔
        (lookupA db.headers q).isSome = true
      rw [getOrCreateBoltBucket_values_any _ db.root root1 hoc]
      exact hinv q hq hqne
    · obtain ⟨t, hsp⟩ : ∃ t, splitPath req.path = "/" :: t :=
        ⟨_, splitPath_eq req.path⟩
      have hdt : (splitPath req.path).drop 1 = t := by rw [hsp]; rfl
      have htnil : t ≠ [] := by rw [← hdt]; exact htail
      cases root1 with
      | value d => exact absurd hput (by cases t.dropLast <;> simp [boltPut])
      | bucket ch1 =>
        rw [hsp, dropLast_cons_of_ne_nil t htnil] at hoc hput
        simp only [List.drop_succ_cons, List.drop_zero] at hoc hput
        rw [List.getLastD_cons] at hput
        have hposEq : t.dropLast ++ [t.getLastD "/"] = t :=
          dropLast_append_getLastD t "/" htnil
        rw [hres]
        intro q hq hqne
        show (valueAtSegs root2 ((splitPath q).drop 1)).isSome = true ↔
          (lookupA (setAssoc db.headers req.path
            (headerSet (headerSet (extractHeader req) "ETag"
              (etag (req.body.take req.contentLength.toNat)))
              "Last-Modified" req.now)) q).isSome = true
        rw [lookupA_setAssoc]
        by_cases hqp : q = req.path
        · rw [if_pos hqp.symm]
          subst hqp
          rw [hdt]
          have hat := boltPut_at t.dropLast ch1 (t.getLastD "/")
            (req.body.take req.contentLength.toNat) root2 hput
          rw [hposEq] at hat
          rw [hat]
          simp
        · rw [if_neg (fun he => hqp he.symm)]
          have hqt : (splitPath q).drop 1 ≠ t := by
            rw [← hdt]
            exact canonicalPath_tail_ne hq hcp hqp
          have hoff := boltPut_off t.dropLast ch1 (t.getLastD "/")
            (req.body.take req.contentLength.toNat) root2
            ((splitPath q).drop 1) hput (by rw [hposEq]; exact hqt)
          rw [hoff, getOrCreateBoltBucket_values_any _ db.root
            (Node.bucket ch1) hoc]
          exact hinv q hq hqne
  · intro db req hinv hcp
    rcases deleteBucketOrKey_cases db req with hsame |
      ⟨htail, root2, hdel, hres⟩
    · rw [hsame]; exact hinv
    · obtain ⟨t, hsp⟩ : ∃ t, splitPath req.path = "/" :: t :=
        ⟨_, splitPath_eq req.path⟩
      have hdt : (splitPath req.path).drop 1 = t := by rw [hsp]; rfl
      have htnil : t ≠ [] := by rw [← hdt]; exact htail
      cases hroot : db.root with
      | value d =>
        rw [hroot] at hdel
        exact absurd hdel (by cases (splitPath req.path).dropLast.drop 1 <;>
          simp [boltDelete])
      | bucket ch1 =>
        rw [hroot] at hdel
        rw [hsp, dropLast_cons_of_ne_nil t htnil] at hdel
        simp only [List.drop_succ_cons, List.drop_zero] at hdel
        rw [List.getLastD_cons] at hdel
        have hposEq : t.dropLast ++ [t.getLastD "/"] = t :=
          dropLast_append_getLastD t "/" htnil
        rw [hres]
        intro q hq hqne
        show (valueAtSegs root2 ((splitPath q).drop 1)).isSome = true ↔
          (lookupA (removeAssoc db.headers req.path) q).isSome = true
        rw [lookupA_removeAssoc]
        by_cases hqp : q = req.path
        · rw [if_pos hqp.symm]
          subst hqp
          rw [hdt]
          have hat := boltDelete_at t.dropLast ch1 (t.getLastD "/") root2 hdel
          rw [hposEq] at hat
          rw [hat]
          simp
        · rw [if_neg (fun he => hqp he.symm)]
          have hqt : (splitPath q).drop 1 ≠ t := by
            rw [← hdt]
            exact canonicalPath_tail_ne hq hcp hqp
          have hoff := boltDelete_off t.dropLast ch1 (t.getLastD "/") root2
            ((splitPath q).drop 1) hdel (by rw [hposEq]; exact hqt)
          rw [hoff, ← hroot]
          exact hinv q hq hqne

/-- Witness for C7: the invariant holds of the initial database and is
preserved by the canonical-path request PUT /a/b with body "foo". -/
theorem C7_witness : StoreInv (putBucketOrValue initialDB reqPutAB).1 :=
  C7_amended_invariant.2.1 initialDB reqPutAB C7_amended_invariant.1 (by decide)

theorem getBoltBucket_cons (db : DB) (l : List Seg) :
    getBoltBucket db ("/" :: l) = walkBuckets db.root l := rfl

/-- Claim C8: a GET of a value path (a record and a value exist for it)
carrying an If-None-Match header in which some value equals "*" or the
stored ETag is answered 304 with an empty body, and the only
stored-metadata-derived header on the response is the ETag header. -/
theorem C8_if_none_match_304 :
    ∀ (db : DB) (req : Request) (hd : HttpHeader) (v : Bytes) (nm : List String),
      getHeaderValue db req.path = some hd →
      valueAtPath db req.path = some v →
      req.ifNoneMatch = some nm →
      (∃ m ∈ nm, m = "*" ∨ m = headerGet hd "ETag") →
      getBucketOrValue db req =
        { status := 304, headers := [("ETag", [headerGet hd "ETag"])],
          body := [], listing := none } := by
  intro db req hd v nm hh hv hnm hex
  have hcnm : checkIfNoneMatch hd req = true := by
    simp only [checkIfNoneMatch, hnm, List.any_eq_true, Bool.or_eq_true,
      beq_iff_eq]
    exact hex
  simp only [getBucketOrValue, hh, hcnm, if_true]
  rfl

/-- Witness for C8: on the database holding "foo" at /a under ETag "t",
GET /a with If-None-Match "t" is answered 304 with an empty body and
only the ETag header. -/
theorem C8_witness :
    getBucketOrValue dbWithA reqGetAMatch =
      { status := 304, headers := [("ETag", ["t"])], body := [],
        listing := none } :=
  C8_if_none_match_304 dbWithA reqGetAMatch [("ETag", ["t"])] [102, 111, 111]
    ["t"] (by decide) (by decide) rfl ⟨"t", by decide, Or.inr rfl⟩

/-- Claim C9: a GET of a stored value whose Range header parses to a
satisfiable span list is answered 206, and the response body is exactly
the concatenation of the requested byte spans in the order they appear
in the header — overlapping or repeated spans are emitted separately,
never merged or deduplicated. -/
theorem C9_range_concat :
    ∀ (db : DB) (req : Request) (hd : HttpHeader) (v : Bytes) (rh : String)
      (rs : List ByteRange),
      getHeaderValue db req.path = some hd →
      checkIfNoneMatch hd req = false →
      valueAtPath db req.path = some v →
      req.rangeHdr = some rh →
      parseRangeHeader rh v.length = Except.ok rs →
      getBucketOrValue db req =
        { status := 206,
          headers := headerDel (headerDel hd "ETag") "Content-Length",
          body := rs.flatMap (fun r => sliceSpan v r),
          listing := none } := by
  intro db req hd v rh rs hh hcnm hv hrh hparse
  have hgate : getBucketOrValue db req =
      getBucketOrValueRest db req (splitPath req.path) (some hd) := by
    simp only [getBucketOrValue, hh, hcnm, Bool.false_eq_true, if_false]
  rw [hgate]
  cases hroot : db.root with
  | value d =>
    unfold valueAtPath at hv
    rw [hroot] at hv
    simp [valueAtSegs] at hv
  | bucket ch =>
    obtain ⟨t, hsp⟩ : ∃ t, splitPath req.path = "/" :: t :=
      ⟨_, splitPath_eq req.path⟩
    have hdt : (splitPath req.path).drop 1 = t := by rw [hsp]; rfl
    unfold valueAtPath at hv
    rw [hdt, hroot] at hv
    have htnil : t ≠ [] := by
      intro he
      rw [he] at hv
      simp [valueAtSegs] at hv
    obtain ⟨ch2, hw, hlast⟩ := valueAtSegs_walk t ch v "/" hv
    have hlen : ("/" :: t).length > 1 := by
      cases t with
      | nil => exact absurd rfl htnil
      | cons a r => simp
    have hlen2 : ¬ (("/" :: t).length = 1) := by
      cases t with
      | nil => exact absurd rfl htnil
      | cons a r => simp
    simp only [getBucketOrValueRest, hsp, if_pos hlen]
    rw [dropLast_cons_of_ne_nil t htnil, getBoltBucket_cons, hroot, hw]
    simp only [if_neg hlen2, getBoltBucketOrValue]
    rw [show ("/" :: t).getLastD "" = t.getLastD "/" from List.getLastD_cons _ _ _]
    simp only [hlast, hrh, hparse]
    rfl

/-- Witness for C9: on the database holding "foo" at /a, GET /a with
Range bytes=0-1,0-1 is answered 206 whose body repeats the first two
bytes twice — the duplicated span is emitted twice, not merged. -/
theorem C9_witness :
    getBucketOrValue dbWithA reqGetARange =
      { status := 206, headers := [],
        body := [102, 111, 102, 111], listing := none } := by
  have h9 := C9_range_concat dbWithA reqGetARange [("ETag", ["t"])]
    [102, 111, 111] "bytes=0-1,0-1"
    [{ start := 0, stop := 1 }, { start := 0, stop := 1 }]
    (by decide) (by decide) (by decide) rfl rfl
  rw [h9]
  rfl

/-- Witness for C5: the amended equivalence applied to a concrete stored
record with ETag "t" and the If-Match value "*". -/
theorem C5_witness :
    checkIfMatch (some [("ETag", ["t"])]) reqStar = true ↔
      ifMatchAmended (some [("ETag", ["t"])]) reqStar :=
  C5_amended_ifmatch (some [("ETag", ["t"])]) reqStar
